import Mathlib

/-!
Verification of the three-player Othello engine: `board.py` (grid state,
legality, capture algorithm, terminal scoring) and `minimax.py` (depth-limited
adversarial search).  The Python code is embedded shallowly: the mutable
`Board.board` grid becomes an immutable `Grid` threaded through the
functions, Python list indexing (with its negative-index wrap-around and
IndexError) becomes `pyIdx`/`pyGet`/`pySet` returning `Option`, and the
recursive search becomes a state-passing function returning the evaluation
together with the grid as the caller's board object ends up after the call.
-/

set_option maxRecDepth 40000

namespace Othello

/-- The `board` field of the Python `Board` dataclass: a list of rows, each a
list of cells; a cell is `EMPTY` or a player index. -/
abbrev Grid := List (List Int)

/-- `EMPTY = -1` in `board.py`. -/
def EMPTY : Int := -1

/-- `Board.rows` (the constructor always builds a 9 × 9 grid). -/
def rows : Nat := 9

/-- `Board.columns`. -/
def columns : Nat := 9

/-- Python list indexing: index `i` into a list of length `n` resolves to
`i` when `0 ≤ i < n`, wraps to `n + i` when `-n ≤ i < 0`, and raises
IndexError (here `none`) otherwise. -/
def pyIdx (n : Nat) (i : Int) : Option Nat :=
  if 0 ≤ i ∧ i < (n : Int) then some i.toNat
  else if -(n : Int) ≤ i ∧ i < 0 then some ((n : Int) + i).toNat
  else none

/-- Python `l[i]` (read). -/
def pyGet (l : List α) (i : Int) : Option α :=
  (pyIdx l.length i).bind l.get?

/-- Python `l[i] = a`. -/
def pySet (l : List α) (i : Int) (a : α) : Option (List α) :=
  (pyIdx l.length i).map fun j => l.set j a

/-- Python `self.board[r][c] = v`: resolve the row index, then assign into
that row, with Python index semantics (`none` = IndexError). -/
def gridSet (g : Grid) (r c : Int) (v : Int) : Option Grid :=
  (pyIdx g.length r).bind fun j =>
    (g.get? j).bind fun row =>
      (pySet row c v).map fun row' => g.set j row'

/-- In-bounds cell read `self.board[r][c]`; the source only reads cells under
its own `0 ≤ r < rows`, `0 ≤ c < columns` guards, where this total version
agrees with Python indexing. -/
def cell (g : Grid) (r c : Nat) : Int :=
  (g.getD r []).getD c EMPTY

/-- `Board.__init__`: a `rows × columns` grid of `EMPTY`. -/
def emptyGrid : Grid :=
  List.replicate rows (List.replicate columns EMPTY)

/-- One in-bounds chained assignment of `setup_three_players` (all its targets
are concrete in-bounds coordinates, so the `getD` default never fires). -/
def setCell (g : Grid) (r c v : Int) : Grid :=
  (gridSet g r c v).getD g

/-- `Board.setup_three_players`, assignment by assignment in source order. -/
def setup_three_players (g : Grid) : Grid :=
  setCell (setCell (setCell (setCell (setCell (setCell (setCell (setCell
    (setCell g 3 3 0) 3 5 0) 4 4 0) 3 4 1) 5 3 1) 5 5 1) 4 3 2) 4 5 2) 5 4 2

/-- The seeded starting position of a game. -/
def startBoard : Grid :=
  setup_three_players emptyGrid

/-- The inner `while` loop of `Board.would_flip` for one direction
`(dy, dx)`: starting at `(r, c)` with the discs already visited, return the
ray's contribution to `flips` (the visited discs when a disc of `player` is
reached, nothing when `EMPTY` or the border is reached).  `fuel` bounds the
loop; a walk that stays in the 9 × 9 bounds moves one step per iteration in a
fixed nonzero direction, so it leaves the bounds after at most `rows +
columns` steps and `rayFuel` is never exhausted. -/
def rayWalk (g : Grid) (player dy dx : Int) :
    Nat → Int → Int → List (Int × Int) → List (Int × Int)
  | 0, _, _, _ => []
  | fuel + 1, r, c, visited =>
    if r < 0 ∨ r ≥ (rows : Int) ∨ c < 0 ∨ c ≥ (columns : Int) then []
    else if cell g r.toNat c.toNat = player then visited
    else if cell g r.toNat c.toNat = EMPTY then []
    else rayWalk g player dy dx fuel (r + dy) (c + dx) (visited ++ [(r, c)])

/-- Loop bound for `rayWalk` (ample, see `rayWalk`). -/
def rayFuel : Nat := rows + columns

/-- `itertools.product([-1, 0, 1], [-1, 0, 1])` in iteration order. -/
def productDirs : List (Int × Int) :=
  [(-1, -1), (-1, 0), (-1, 1), (0, -1), (0, 0), (0, 1), (1, -1), (1, 0), (1, 1)]

/-- `Board.would_flip`: accumulate, over the direction product (skipping
`dy == dx == 0`), each direction's ray contribution. -/
def would_flip (g : Grid) (row column player : Int) : List (Int × Int) :=
  productDirs.foldl (fun flips d =>
    if d.1 = d.2 ∧ d.2 = 0 then flips
    else flips ++ rayWalk g player d.1 d.2 rayFuel (row + d.1) (column + d.2) []) []

/-- The adjacency scan inside `Board.validate_placing`: some in-bounds
8-neighbour of `(row, column)` is occupied.  `List.any` has the same result
as the source's accumulating loop with early `break`. -/
def is_adjacent (g : Grid) (row column : Int) : Bool :=
  [row - 1, row, row + 1].any fun y =>
    [column - 1, column, column + 1].any fun x =>
      if y < 0 ∨ y ≥ (rows : Int) ∨ x < 0 ∨ x ≥ (columns : Int) then false
      else if row = y ∧ column = x then false
      else cell g y.toNat x.toNat ≠ EMPTY

/-- `Board.validate_placing`. -/
def validate_placing (g : Grid) (row column player : Int) : Bool × String :=
  if row < 0 ∨ row ≥ (rows : Int) ∨ column < 0 ∨ column ≥ (columns : Int) then
    (false, "Placement out of bounds.")
  else if cell g row.toNat column.toNat ≠ EMPTY then
    (false, "Square taken.")
  else if ¬ is_adjacent g row column then
    (false, "New disc must be adjacent to some existing one.")
  else if would_flip g row column player = [] then
    (false, "Move wont flip any disks.")
  else
    (true, "")

/-- `Board.place`: the source calls `validate_placing` but discards its
result and proceeds unconditionally, writing every flip and then the target
cell with Python index semantics (`none` = IndexError). -/
def place (g : Grid) (row column player : Int) : Option Grid :=
  let _ := validate_placing g row column player
  let to_flip := would_flip g row column player
  match to_flip.foldlM (fun h q => gridSet h q.1 q.2 player) g with
  | none => none
  | some g1 => gridSet g1 row column player

/-- `Board.has_valid_move` (`List.any` matches the early `return True`). -/
def has_valid_move (g : Grid) (player : Int) : Bool :=
  (List.range rows).any fun (r : Nat) =>
    (List.range columns).any fun (c : Nat) =>
      (validate_placing g (r : Int) (c : Int) player).1

/-- `Board.valid_moves`: scan rows then columns, appending each valid
`(row, column)`. -/
def valid_moves (g : Grid) (player : Int) : List (Int × Int) :=
  (List.range rows).foldl (fun moves (r : Nat) =>
    (List.range columns).foldl (fun moves (c : Nat) =>
      if (validate_placing g (r : Int) (c : Int) player).1 then
        moves ++ [((r : Int), (c : Int))]
      else moves) moves) []

/-- `scores[cell] += 1` with Python index semantics (`none` = IndexError for
a cell value outside `[-3, 3)`). -/
def bumpScore (scores : List Nat) (c : Int) : Option (List Nat) :=
  (pyGet scores c).bind fun v => pySet scores c (v + 1)

/-- `Board.get_winner`: tally `scores[cell] += 1` over every cell of every
row, then `max(scores)` and the draw test.  `some none` is a draw, `some
(some p)` names the winner (`scores.index` of the maximum, which `foldl max
0` equals on these non-negative three-element tallies), `none` an
IndexError. -/
def get_winner (g : Grid) : Option (Option Nat) :=
  match g.flatten.foldlM bumpScore [0, 0, 0] with
  | none => none
  | some scores =>
    let max_score := scores.foldl max 0
    if (scores.filter fun x => x = max_score).length > 1 then some none
    else some (some (scores.indexOf max_score))

/-- The body of `minimax` past the `depth == 0` test, with the recursive
occurrences abstracted as `recv` (already applied to `depth - 1`, its
`maximizing_player`, `num_players` and `heuristic` being fixed).  The result
pairs the returned evaluation with the state of the caller's board object
after the call: the pass branch hands the recursion a `deepcopy`, so only the
evaluation comes back and the caller's grid is returned untouched; the move
loop shares the one board object, so the grid is threaded through
`place`-then-recurse-then-reset-the-target-cell (`st.1` is the running
`max_eval`, `None` before the first iteration).  The `getD` fallbacks mirror
that `place` and the reset assignment cannot raise for the in-bounds moves
`valid_moves` produces. -/
def minimaxStep (h : Grid → Int → Int) (maximizing_player : Int)
    (num_players : Nat) (recv : Grid → Int → Nat → Int × Grid) (g : Grid)
    (current_player : Int) (turns_passed : Nat) : Int × Grid :=
  if turns_passed = num_players then (h g current_player, g)
  else
    let vm := valid_moves g current_player
    let next_player := (current_player + 1) % (num_players : Int)
    if vm = [] then
      ((recv g next_player (turns_passed + 1)).1, g)
    else
      let out := vm.foldl (fun (st : Option Int × Grid) mv =>
        let g1 := (place st.2 mv.1 mv.2 current_player).getD st.2
        let res := recv g1 next_player 0
        let g3 := (gridSet res.2 mv.1 mv.2 EMPTY).getD res.2
        (some (match st.1 with
          | none => res.1
          | some m =>
            if current_player = maximizing_player then max m res.1
            else min m res.1), g3)) (none, g)
      (out.1.getD 0, out.2)

/-- `minimax` from `minimax.py`, argument for argument (the heuristic is a
pure `Grid → Int → Int`); `depth = 0` is the source's `depth == 0` half of
the base test, and every recursive call in `minimaxStep` receives
`depth - 1`. -/
def minimax (h : Grid → Int → Int) (maximizing_player : Int)
    (num_players : Nat) : Nat → Grid → Int → Nat → Int × Grid
  | 0, g, current_player, _ => (h g current_player, g)
  | depth + 1, g, current_player, turns_passed =>
    minimaxStep h maximizing_player num_players
      (minimax h maximizing_player num_players depth) g current_player
      turns_passed

/-- One capturing ray of the spec's `captures`: walking outward from
`(r, c)` in direction `(dy, dx)`, the consecutive cells owned by players
other than `player`, provided the walk then reaches a cell owned by `player`;
`none` when it reaches an `EMPTY` cell or exits the grid bounds (that ray
contributes nothing).  Written from the spec's description, to be compared
with the source's `would_flip`. -/
def rayCells (g : Grid) (player dy dx : Int) :
    Nat → Int → Int → Option (List (Int × Int))
  | 0, _, _ => none
  | fuel + 1, r, c =>
    if r < 0 ∨ r ≥ (rows : Int) ∨ c < 0 ∨ c ≥ (columns : Int) then none
    else if cell g r.toNat c.toNat = player then some []
    else if cell g r.toNat c.toNat = EMPTY then none
    else (rayCells g player dy dx fuel (r + dy) (c + dx)).map fun l => (r, c) :: l

/-- The 8 compass directions. -/
def compassDirs : List (Int × Int) :=
  [(-1, -1), (-1, 0), (-1, 1), (0, -1), (0, 1), (1, -1), (1, 0), (1, 1)]

/-- `captures` as the spec words it: the union (here the ordered
concatenation) over the 8 compass directions of the capturing rays. -/
def specCaptures (g : Grid) (row column player : Int) : List (Int × Int) :=
  (compassDirs.map fun d =>
    (rayCells g player d.1 d.2 rayFuel (row + d.1) (column + d.2)).getD []).flatten

/-- A 9 × 9 grid: the shape of every grid the program builds (the
constructor makes one and every mutation preserves row lengths). -/
def wellFormed (g : Grid) : Prop :=
  g.length = rows ∧ ∀ row ∈ g, row.length = columns

instance (g : Grid) : Decidable (wellFormed g) := by
  unfold wellFormed
  infer_instance

/-- All cells of the grid in row-major, ascending order (the claim's
enumeration order for `valid_moves`). -/
def allCells : List (Int × Int) :=
  (List.range rows).flatMap fun (r : Nat) =>
    (List.range columns).map fun (c : Nat) => ((r : Int), (c : Int))

/-- The claim's bounds condition on a placement target. -/
def inBounds (row column : Int) : Prop :=
  0 ≤ row ∧ row < (rows : Int) ∧ 0 ≤ column ∧ column < (columns : Int)

/-- The claim's adjacency condition: some cell of the 3 × 3 block around
`(row, column)`, other than the centre itself and clipped to the grid
bounds, is occupied. -/
def adjacentSpec (g : Grid) (row column : Int) : Prop :=
  ∃ y ∈ [row - 1, row, row + 1], ∃ x ∈ [column - 1, column, column + 1],
    ¬(y = row ∧ x = column) ∧ inBounds y x ∧ cell g y.toNat x.toNat ≠ EMPTY

/-- Occupied cells a player holds on the grid (the spec's per-player score). -/
def countDiscs (g : Grid) (p : Int) : Nat :=
  (g.flatten.filter fun c => c = p).length

/-- A grid whose occupied-cell counts are 12 for player 0 and 5 each for
players 1 and 2 (the spec's second `winner()` example); 59 cells empty. -/
def scoreGrid_12_5_5 : Grid :=
  [[0, 0, 0, 0, 0, 0, 0, 0, 0],
   [0, 0, 0, 1, 1, 1, 1, 1, 2],
   [2, 2, 2, 2, -1, -1, -1, -1, -1],
   [-1, -1, -1, -1, -1, -1, -1, -1, -1],
   [-1, -1, -1, -1, -1, -1, -1, -1, -1],
   [-1, -1, -1, -1, -1, -1, -1, -1, -1],
   [-1, -1, -1, -1, -1, -1, -1, -1, -1],
   [-1, -1, -1, -1, -1, -1, -1, -1, -1],
   [-1, -1, -1, -1, -1, -1, -1, -1, -1]]

/-- A grid whose occupied-cell counts are 10, 10 and 5 (the spec's two-way
tie `winner()` example); 56 cells empty. -/
def scoreGrid_10_10_5 : Grid :=
  [[0, 0, 0, 0, 0, 0, 0, 0, 0],
   [0, 1, 1, 1, 1, 1, 1, 1, 1],
   [1, 1, 2, 2, 2, 2, 2, -1, -1],
   [-1, -1, -1, -1, -1, -1, -1, -1, -1],
   [-1, -1, -1, -1, -1, -1, -1, -1, -1],
   [-1, -1, -1, -1, -1, -1, -1, -1, -1],
   [-1, -1, -1, -1, -1, -1, -1, -1, -1],
   [-1, -1, -1, -1, -1, -1, -1, -1, -1],
   [-1, -1, -1, -1, -1, -1, -1, -1, -1]]

/-- C1: at its base case `minimax` evaluates the heuristic at the *current*
player, not at the maximizing player.  At depth 0 with maximizing player 0
and current player 1, the player-perspective heuristic comes back as 1, while
its value for the maximizing player is 0. -/
theorem minimax_base_evaluates_current_player :
    (minimax (fun _ p => p) 0 3 0 startBoard 1 0).1 = 1 ∧
      (fun (_ : Grid) (p : Int) => p) startBoard 0 ≠ 1 :=
  ⟨rfl, by decide⟩

/-- C2: `get_winner` tallies `EMPTY` (-1) cells into `scores[-1]`, which in
Python is player 2's slot, so on both of the spec's example score
distributions it returns player 2 instead of player 0, resp. a draw. -/
theorem get_winner_counts_empties_for_player_two :
    (countDiscs scoreGrid_12_5_5 0 = 12 ∧ countDiscs scoreGrid_12_5_5 1 = 5 ∧
      countDiscs scoreGrid_12_5_5 2 = 5 ∧
      get_winner scoreGrid_12_5_5 = some (some 2)) ∧
    (countDiscs scoreGrid_10_10_5 0 = 10 ∧
      countDiscs scoreGrid_10_10_5 1 = 10 ∧ countDiscs scoreGrid_10_10_5 2 = 5 ∧
      get_winner scoreGrid_10_10_5 = some (some 2)) := by
  constructor <;> refine ⟨by decide, by decide, by decide, by decide⟩

/-- C3: a depth-1 search from the seeded starting position leaves the
caller's grid changed: the move loop resets only the placed cell to `EMPTY`
and never restores the discs the simulated placements flipped. -/
theorem minimax_search_mutates_grid :
    (minimax (fun _ _ => 0) 0 3 1 startBoard 0 0).2 ≠ startBoard := by
  decide

/-- C4: `place` ignores the result of `validate_placing`: placing player 1 on
the occupied cell (3, 3) of the starting position is rejected by the
legality check, yet `place` raises nothing and mutates the grid, overwriting
the cell with player 1. -/
theorem place_illegal_move_mutates :
    (validate_placing startBoard 3 3 1).1 = false ∧
      (place startBoard 3 3 1).isSome = true ∧
      (place startBoard 3 3 1).map (fun g => cell g 3 3) = some 1 ∧
      place startBoard 3 3 1 ≠ some startBoard := by
  refine ⟨by decide, by decide, by decide, by decide⟩

/-- The ray walk of `would_flip`, relative to the discs already visited, is
the spec's capturing ray: it returns `visited ++ l` when the ray captures the
cells `l`, and nothing when the ray fails at an `EMPTY` cell or the border. -/
theorem rayWalk_eq_rayCells (g : Grid) (player dy dx : Int) :
    ∀ (fuel : Nat) (r c : Int) (visited : List (Int × Int)),
      rayWalk g player dy dx fuel r c visited =
        match rayCells g player dy dx fuel r c with
        | some l => visited ++ l
        | none => [] := by
  intro fuel
  induction fuel with
  | zero => intro r c visited; rfl
  | succ f ih =>
    intro r c visited
    simp only [rayWalk, rayCells]
    split_ifs with h1 h2 h3
    · rfl
    · simp
    · rfl
    · rw [ih]
      cases hrc : rayCells g player dy dx f (r + dy) (c + dx) with
      | none => simp
      | some l => simp

/-- C5: `would_flip` computes exactly the spec's `captures`: the union over
the 8 compass directions of the rays that accumulate consecutive
opposing-owned cells and capture them all when a cell owned by `player` ends
the walk, contributing nothing when an `EMPTY` cell or the grid border ends
it. -/
theorem would_flip_eq_specCaptures (g : Grid) (row column player : Int) :
    would_flip g row column player = specCaptures g row column player := by
  have hray : ∀ dy dx r c, rayWalk g player dy dx rayFuel r c [] =
      (rayCells g player dy dx rayFuel r c).getD [] := by
    intro dy dx r c
    rw [rayWalk_eq_rayCells]
    cases rayCells g player dy dx rayFuel r c <;> simp
  simp only [would_flip, specCaptures, productDirs, compassDirs, List.foldl,
    List.map, List.flatten]
  simp [hray, List.append_assoc]

/-- The adjacency scan of `validate_placing` decides the claim's adjacency
condition. -/
theorem is_adjacent_iff (g : Grid) (row column : Int) :
    is_adjacent g row column = true ↔ adjacentSpec g row column := by
  simp only [is_adjacent, adjacentSpec, List.any_eq_true]
  constructor
  · rintro ⟨y, hy, x, hx, h⟩
    by_cases h1 : y < 0 ∨ y ≥ (rows : Int) ∨ x < 0 ∨ x ≥ (columns : Int)
    · rw [if_pos h1] at h
      simp at h
    · rw [if_neg h1] at h
      by_cases h2 : row = y ∧ column = x
      · rw [if_pos h2] at h
        simp at h
      · rw [if_neg h2] at h
        push_neg at h1
        exact ⟨y, hy, x, hx, fun hc => h2 ⟨hc.1.symm, hc.2.symm⟩,
          ⟨h1.1, h1.2.1, h1.2.2.1, h1.2.2.2⟩, by simpa using h⟩
  · rintro ⟨y, hy, x, hx, hne, hb, hcell⟩
    refine ⟨y, hy, x, hx, ?_⟩
    rw [if_neg, if_neg]
    · simpa using hcell
    · exact fun hc => hne ⟨hc.1.symm, hc.2.symm⟩
    · push_neg
      exact ⟨hb.1, hb.2.1, hb.2.2.1, hb.2.2.2⟩

/-- The Boolean component of `validate_placing`, as the bare cascade of its
four rejection tests. -/
theorem validate_fst (g : Grid) (row column player : Int) :
    (validate_placing g row column player).1 =
      if row < 0 ∨ row ≥ (rows : Int) ∨ column < 0 ∨ column ≥ (columns : Int)
        then false
      else if cell g row.toNat column.toNat ≠ EMPTY then false
      else if ¬ is_adjacent g row column then false
      else if would_flip g row column player = [] then false
      else true := by
  unfold validate_placing
  split_ifs <;> rfl

/-- C6: `validate_placing` accepts exactly when all four conditions hold —
the target is in bounds, currently `EMPTY`, 8-directionally adjacent to an
occupied cell, and `would_flip` captures something; in particular a move
meeting bounds, emptiness and adjacency that captures nothing is illegal,
and a placement whose in-bounds neighbours are all `EMPTY` is illegal for
every player. -/
theorem validate_placing_iff (g : Grid) (row column player : Int) :
    ((validate_placing g row column player).1 = true ↔
      inBounds row column ∧ cell g row.toNat column.toNat = EMPTY ∧
        adjacentSpec g row column ∧ would_flip g row column player ≠ []) ∧
    ((inBounds row column ∧ cell g row.toNat column.toNat = EMPTY ∧
        adjacentSpec g row column ∧ would_flip g row column player = []) →
      (validate_placing g row column player).1 = false) ∧
    ((∀ y ∈ [row - 1, row, row + 1], ∀ x ∈ [column - 1, column, column + 1],
        ¬(y = row ∧ x = column) → inBounds y x →
          cell g y.toNat x.toNat = EMPTY) →
      (validate_placing g row column player).1 = false) := by
  have hiff : (validate_placing g row column player).1 = true ↔
      inBounds row column ∧ cell g row.toNat column.toNat = EMPTY ∧
        adjacentSpec g row column ∧ would_flip g row column player ≠ [] := by
    rw [validate_fst]
    by_cases h1 : row < 0 ∨ row ≥ (rows : Int) ∨ column < 0 ∨
        column ≥ (columns : Int)
    · simp only [if_pos h1, Bool.false_eq_true, false_iff]
      rintro ⟨⟨hb1, hb2, hb3, hb4⟩, -, -, -⟩
      rcases h1 with h | h | h | h <;> omega
    · rw [if_neg h1]
      by_cases h2 : cell g row.toNat column.toNat ≠ EMPTY
      · simp only [if_pos h2, Bool.false_eq_true, false_iff]
        rintro ⟨-, he, -, -⟩
        exact h2 he
      · rw [if_neg h2]
        by_cases h3 : is_adjacent g row column = true
        · rw [if_neg (not_not_intro h3)]
          by_cases h4 : would_flip g row column player = []
          · simp only [if_pos h4, Bool.false_eq_true, false_iff]
            rintro ⟨-, -, -, hf⟩
            exact hf h4
          · rw [if_neg h4]
            push_neg at h1
            constructor
            · intro h'
              exact ⟨⟨h1.1, h1.2.1, h1.2.2.1, h1.2.2.2⟩, not_not.mp h2,
                (is_adjacent_iff g row column).mp h3, h4⟩
            · intro h'
              rfl
        · have h3' : ¬ is_adjacent g row column := h3
          simp only [if_pos h3', Bool.false_eq_true, false_iff]
          rintro ⟨-, -, ha, -⟩
          exact h3 ((is_adjacent_iff g row column).mpr ha)
  refine ⟨hiff, ?_, ?_⟩
  · intro hcond
    cases hv : (validate_placing g row column player).1 with
    | false => rfl
    | true =>
      exact absurd (hiff.mp hv).2.2.2 (not_not_intro hcond.2.2.2)
  · intro hall
    cases hv : (validate_placing g row column player).1 with
    | false => rfl
    | true =>
      rcases (hiff.mp hv).2.2.1 with ⟨y, hy, x, hx, hne, hb, hcell⟩
      exact absurd (hall y hy x hx hne hb) hcell

/-- An append-if-accepted fold is the filtered, mapped list appended to the
accumulator. -/
theorem foldl_append_if (p : α → Bool) (f : α → β) :
    ∀ (l : List α) (acc : List β),
      l.foldl (fun acc x => if p x then acc ++ [f x] else acc) acc =
        acc ++ (l.filter p).map f := by
  intro l
  induction l with
  | nil => intro acc; simp
  | cons a t ih =>
    intro acc
    rw [List.foldl_cons, List.filter_cons, ih]
    by_cases hp : p a
    · rw [if_pos hp, if_pos hp]
      simp
    · rw [if_neg hp, if_neg hp]

/-- An append-accumulating fold is the flattened map appended to the
accumulator. -/
theorem foldl_append_flatten (f : α → List β) :
    ∀ (l : List α) (acc : List β),
      l.foldl (fun acc x => acc ++ f x) acc = acc ++ (l.map f).flatten := by
  intro l
  induction l with
  | nil => intro acc; simp
  | cons a t ih =>
    intro acc
    rw [List.foldl_cons, ih]
    simp

/-- C8: `valid_moves` returns exactly the cells `validate_placing` accepts,
as the filter of the row-major ascending enumeration of all cells (hence
stable and deterministic), and `has_valid_move` holds exactly when that list
is non-empty. -/
theorem valid_moves_eq_filter (g : Grid) (player : Int) :
    valid_moves g player =
      (allCells.filter fun mv => (validate_placing g mv.1 mv.2 player).1) ∧
    (has_valid_move g player = true ↔ valid_moves g player ≠ []) := by
  have hrow : ∀ (r : Nat) (acc : List (Int × Int)),
      (List.range columns).foldl (fun moves (c : Nat) =>
        if (validate_placing g (r : Int) (c : Int) player).1 then
          moves ++ [((r : Int), (c : Int))]
        else moves) acc =
        acc ++ (((List.range columns).filter fun (c : Nat) =>
          (validate_placing g (r : Int) (c : Int) player).1).map
            fun (c : Nat) => ((r : Int), (c : Int))) := fun r acc =>
    foldl_append_if
      (fun (c : Nat) => (validate_placing g (r : Int) (c : Int) player).1)
      (fun (c : Nat) => ((r : Int), (c : Int))) (List.range columns) acc
  have hmain : valid_moves g player =
      allCells.filter fun mv => (validate_placing g mv.1 mv.2 player).1 := by
    have hsteps : valid_moves g player =
        (List.range rows).foldl (fun moves (r : Nat) =>
          moves ++ (((List.range columns).filter fun (c : Nat) =>
            (validate_placing g (r : Int) (c : Int) player).1).map
              fun (c : Nat) => ((r : Int), (c : Int)))) [] := by
      unfold valid_moves
      congr 1
      funext moves r
      exact hrow r moves
    rw [hsteps, foldl_append_flatten, List.nil_append]
    have hcells : allCells =
        ((List.range rows).map fun (r : Nat) =>
          (List.range columns).map fun (c : Nat) => ((r : Int), (c : Int))).flatten := by
      rfl
    rw [hcells, List.filter_flatten, List.map_map]
    refine congrArg List.flatten (List.map_congr_left fun r hr => ?_)
    show _ = ((List.range columns).map fun (c : Nat) =>
      ((r : Int), (c : Int))).filter _
    rw [List.filter_map]
    rfl
  have hex : has_valid_move g player = true ↔
      ∃ mv ∈ allCells, (validate_placing g mv.1 mv.2 player).1 = true := by
    simp only [has_valid_move, List.any_eq_true, allCells, List.mem_flatMap,
      List.mem_map]
    constructor
    · rintro ⟨r, hr, c, hc, hv⟩
      exact ⟨((r : Int), (c : Int)), ⟨r, hr, c, hc, rfl⟩, hv⟩
    · rintro ⟨mv, ⟨r, hr, c, hc, rfl⟩, hv⟩
      exact ⟨r, hr, c, hc, hv⟩
  refine ⟨hmain, ?_, ?_⟩
  · intro h hnil
    obtain ⟨mv, hmem, hP⟩ := hex.mp h
    rw [hmain] at hnil
    exact absurd hP (List.filter_eq_nil_iff.mp hnil mv hmem)
  · intro h
    obtain ⟨mv, hmv⟩ := List.exists_mem_of_ne_nil _ h
    rw [hmain] at hmv
    exact hex.mpr ⟨mv, (List.mem_filter.mp hmv).1, (List.mem_filter.mp hmv).2⟩

/-- C7: when the current player has no legal move and neither half of the
base case holds, `minimax` does not terminate early: it recurses with the
depth lowered by 1, the next player in rotation `(cp + 1) % np` and the
consecutive-pass counter raised by 1, and it hands the caller's grid back
unchanged (the recursion runs on a `deepcopy`). -/
theorem minimax_pass_recursion (h : Grid → Int → Int) (mp : Int) (np : Nat)
    (d : Nat) (g : Grid) (cp : Int) (tp : Nat) (h1 : tp ≠ np)
    (h2 : valid_moves g cp = []) :
    minimax h mp np (d + 1) g cp tp =
      ((minimax h mp np d g ((cp + 1) % (np : Int)) (tp + 1)).1, g) := by
  show minimaxStep h mp np (minimax h mp np d) g cp tp = _
  rw [minimaxStep, if_neg h1]
  simp [h2]

/-- A pass step of `minimax` at a concrete input: on the fully empty grid
player 0 has no move, so the searcher passes to player 1 with one pass
recorded and the grid intact. -/
theorem minimax_pass_recursion_witness :
    minimax (fun _ _ => (0 : Int)) 0 3 1 emptyGrid 0 0 =
      ((minimax (fun _ _ => (0 : Int)) 0 3 0 emptyGrid 1 1).1, emptyGrid) :=
  minimax_pass_recursion (fun _ _ => 0) 0 3 0 emptyGrid 0 0
    (by decide) (by decide)

/-- C9: the recursion of `minimax` is well-founded on the depth argument:
the depth-0 base equation together with the one-step body (whose every
recursive call, pass branch and expansion branch alike, receives
`depth - 1`) determines the total function `minimax` uniquely. -/
theorem minimax_depth_determined (h : Grid → Int → Int) (mp : Int) (np : Nat)
    (F : Nat → Grid → Int → Nat → Int × Grid)
    (hF0 : ∀ g cp tp, F 0 g cp tp = (h g cp, g))
    (hFS : ∀ d g cp tp, F (d + 1) g cp tp = minimaxStep h mp np (F d) g cp tp) :
    ∀ d g cp tp, F d g cp tp = minimax h mp np d g cp tp := by
  intro d
  induction d with
  | zero =>
    intro g cp tp
    rw [hF0]
    rfl
  | succ d ih =>
    intro g cp tp
    rw [hFS]
    have hFd : F d = minimax h mp np d := by
      funext g' cp' tp'
      exact ih g' cp' tp'
    rw [hFd]
    rfl

/-- The recursion equations at a concrete input: `minimax` itself satisfies
them, so the uniqueness theorem applies to it at depth 2 on the starting
position. -/
theorem minimax_depth_determined_witness :
    minimax (fun _ _ => (0 : Int)) 0 3 2 startBoard 0 0 =
      minimax (fun _ _ => (0 : Int)) 0 3 2 startBoard 0 0 :=
  minimax_depth_determined (fun _ _ => 0) 0 3 (minimax (fun _ _ => 0) 0 3)
    (fun _ _ _ => rfl) (fun _ _ _ _ => rfl) 2 startBoard 0 0

/-- A resolved Python index is below the list length. -/
theorem pyIdx_lt {n : Nat} {i : Int} {j : Nat} (h : pyIdx n i = some j) :
    j < n := by
  unfold pyIdx at h
  split_ifs at h with h1 h2
  · injection h with h'
    omega
  · injection h with h'
    omega

/-- A non-negative in-range index resolves to itself. -/
theorem pyIdx_nonneg_eq {n : Nat} {i : Int} (h0 : 0 ≤ i) (hn : i < (n : Int)) :
    pyIdx n i = some i.toNat := by
  unfold pyIdx
  rw [if_pos ⟨h0, hn⟩]

/-- On a well-formed grid, a write through resolved indices `j`, `k`
succeeds, keeps the grid well-formed, and leaves `v` in cell `(j, k)`. -/
theorem gridSet_ok {g : Grid} (hg : wellFormed g) {r c : Int} {j k : Nat}
    (hj : pyIdx rows r = some j) (hk : pyIdx columns c = some k) (v : Int) :
    ∃ g', gridSet g r c v = some g' ∧ wellFormed g' ∧ cell g' j k = v := by
  obtain ⟨hlen, hrows⟩ := hg
  have hjlt : j < g.length := by
    rw [hlen]
    exact pyIdx_lt hj
  obtain ⟨row, hrow⟩ : ∃ row, g.get? j = some row :=
    ⟨g.get ⟨j, hjlt⟩, List.get?_eq_get hjlt⟩
  have hrlen : row.length = columns := hrows row (List.get?_mem hrow)
  have hklt : k < row.length := by
    rw [hrlen]
    exact pyIdx_lt hk
  refine ⟨g.set j (row.set k v), ?_, ⟨?_, ?_⟩, ?_⟩
  · unfold gridSet pySet
    rw [hlen, hj, Option.some_bind, hrow, Option.some_bind, hrlen, hk]
    rfl
  · rw [List.length_set, hlen]
  · intro row' hmem
    rcases List.mem_or_eq_of_mem_set hmem with h | h
    · exact hrows row' h
    · rw [h, List.length_set, hrlen]
  · have h1 : (g.set j (row.set k v)).get? j = some (row.set k v) :=
      List.get?_set_eq_of_lt (row.set k v) hjlt
    have h2 : (row.set k v).get? k = some v :=
      List.get?_set_eq_of_lt v hklt
    have hget : (g.set j (row.set k v)).getD j [] = row.set k v := by
      rw [List.getD_eq_get?, h1, Option.getD_some]
    unfold cell
    rw [hget, List.getD_eq_get?, h2, Option.getD_some]

/-- Folding in-bounds writes over a well-formed grid succeeds and keeps the
grid well-formed (the flip loop of `place`). -/
theorem foldlM_gridSet_ok (v : Int) :
    ∀ (l : List (Int × Int)) (g : Grid), wellFormed g →
      (∀ q ∈ l, inBounds q.1 q.2) →
      ∃ g', l.foldlM (fun h q => gridSet h q.1 q.2 v) g = some g' ∧
        wellFormed g' := by
  intro l
  induction l with
  | nil =>
    intro g hg _
    exact ⟨g, rfl, hg⟩
  | cons q t ih =>
    intro g hg hb
    have h1 := hb q (List.mem_cons_self q t)
    obtain ⟨g1, hg1, hwf1, -⟩ := gridSet_ok hg
      (pyIdx_nonneg_eq h1.1 h1.2.1) (pyIdx_nonneg_eq h1.2.2.1 h1.2.2.2) v
    obtain ⟨g', hfold, hwf⟩ := ih g1 hwf1
      (fun p hp => hb p (List.mem_cons_of_mem q hp))
    refine ⟨g', ?_, hwf⟩
    rw [List.foldlM_cons, hg1]
    exact hfold

/-- Every disc the ray walk accumulates was checked in bounds. -/
theorem rayWalk_bounds (g : Grid) (player dy dx : Int) :
    ∀ (fuel : Nat) (r c : Int) (visited : List (Int × Int)),
      (∀ q ∈ visited, inBounds q.1 q.2) →
      ∀ q ∈ rayWalk g player dy dx fuel r c visited, inBounds q.1 q.2 := by
  intro fuel
  induction fuel with
  | zero =>
    intro r c visited _ q hq
    simp [rayWalk] at hq
  | succ f ih =>
    intro r c visited hv q hq
    rw [rayWalk] at hq
    by_cases h1 : r < 0 ∨ r ≥ (rows : Int) ∨ c < 0 ∨ c ≥ (columns : Int)
    · rw [if_pos h1] at hq
      simp at hq
    · rw [if_neg h1] at hq
      by_cases h2 : cell g r.toNat c.toNat = player
      · rw [if_pos h2] at hq
        exact hv q hq
      · rw [if_neg h2] at hq
        by_cases h3 : cell g r.toNat c.toNat = EMPTY
        · rw [if_pos h3] at hq
          simp at hq
        · rw [if_neg h3] at hq
          refine ih (r + dy) (c + dx) (visited ++ [(r, c)]) ?_ q hq
          intro p hp
          rcases List.mem_append.mp hp with hmem | hmem
          · exact hv p hmem
          · push_neg at h1
            have hp' : p = (r, c) := by simpa using hmem
            rw [hp']
            exact ⟨h1.1, h1.2.1, h1.2.2.1, h1.2.2.2⟩

/-- Every cell `would_flip` reports is in bounds. -/
theorem would_flip_bounds (g : Grid) (row column player : Int) :
    ∀ q ∈ would_flip g row column player, inBounds q.1 q.2 := by
  unfold would_flip
  have hstep : ∀ (l : List (Int × Int)) (acc : List (Int × Int)),
      (∀ q ∈ acc, inBounds q.1 q.2) →
      ∀ q ∈ l.foldl (fun flips d =>
        if d.1 = d.2 ∧ d.2 = 0 then flips
        else flips ++
          rayWalk g player d.1 d.2 rayFuel (row + d.1) (column + d.2) []) acc,
        inBounds q.1 q.2 := by
    intro l
    induction l with
    | nil =>
      intro acc hacc q hq
      exact hacc q hq
    | cons d t ih =>
      intro acc hacc q hq
      rw [List.foldl_cons] at hq
      refine ih _ ?_ q hq
      by_cases hd : d.1 = d.2 ∧ d.2 = 0
      · rw [if_pos hd]
        exact hacc
      · rw [if_neg hd]
        intro p hp
        rcases List.mem_append.mp hp with hmem | hmem
        · exact hacc p hmem
        · exact rayWalk_bounds g player d.1 d.2 rayFuel _ _ [] (by simp) p hmem
  exact hstep productDirs [] (by simp)

/-- C10: a placement at row `-1` and an in-bounds column is not rejected:
`place` raises no error, Python's negative indexing wraps the write to the
last row, and the cell `(rows - 1, column)` ends up owned by `player` —
the grid is mutated on an out-of-bounds request. -/
theorem place_negative_row_wraps (g : Grid) (col player : Int)
    (hg : wellFormed g) (h0 : 0 ≤ col) (h9 : col < (columns : Int)) :
    ∃ g', place g (-1) col player = some g' ∧
      cell g' (rows - 1) col.toNat = player := by
  obtain ⟨g1, hfold, hwf1⟩ := foldlM_gridSet_ok player
    (would_flip g (-1) col player) g hg (would_flip_bounds g (-1) col player)
  have hj : pyIdx rows (-1) = some 8 := by decide
  have hk : pyIdx columns col = some col.toNat := pyIdx_nonneg_eq h0 h9
  obtain ⟨g2, hset, hwf2, hcell⟩ := gridSet_ok hwf1 hj hk player
  refine ⟨g2, ?_, hcell⟩
  show (match (would_flip g (-1) col player).foldlM
      (fun h q => gridSet h q.1 q.2 player) g with
    | none => none
    | some g1 => gridSet g1 (-1) col player) = some g2
  rw [hfold]
  exact hset

/-- The negative-row wrap at a concrete input: `place` on the starting
position at row `-1`, column 4 succeeds and writes player 0 into the last
row. -/
theorem place_negative_row_wraps_witness :
    ∃ g', place startBoard (-1) 4 0 = some g' ∧
      cell g' (rows - 1) (4 : Int).toNat = 0 :=
  place_negative_row_wraps startBoard 4 0 (by decide) (by decide) (by decide)

end Othello
